import Mathlib

/-!
Verification development for the PolyCalc compiler (parser.cc / parser.h).

The definitions below are a shallow embedding of the C++ source:
pure tree walks become Lean functions, the parser's global tables become
explicit state records, and the recursive-descent token parsers become
fuel-indexed functions over a token list.  Machine `int` values are
modelled as mathematical integers (`Int`): no property stated here
depends on a fixed word width, and signed overflow is undefined
behaviour in the source language.
-/

namespace PolyCalc

/-- Expression AST, mirroring the `Expr` class hierarchy in parser.cc
(`ConstExpr`, `VarExpr`, `AddExpr`, `SubExpr`, `MulExpr`, `PowExpr`,
`CallExpr`).  `PowExpr`'s exponent is a literal non-negative integer
captured at parse time (`atoi` of a NUM token). -/
inductive Expr where
  | const (value : Int)
  | var (name : String) (line_no : Nat)
  | add (left right : Expr)
  | sub (left right : Expr)
  | mul (left right : Expr)
  | pow (base : Expr) (exponent : Nat)
  | call (polyName : String) (args : List Expr)

/-- Statement AST, mirroring `InputStmt`, `OutputStmt`, `AssignStmt`. -/
inductive Stmt where
  | input (var : String)
  | output (var : String)
  | assign (var : String) (line_no : Nat) (rhs : Expr)

/-- A call-site semantic finding, mirroring the strings
"Semantic Error Code 3: line" (undeclared polynomial) and
"Semantic Error Code 4: line" (arity mismatch) pushed onto the global
`semantic_errors` vector.  Those are the only two shapes ever pushed. -/
inductive SemErr where
  | code3 (line : Nat)
  | code4 (line : Nat)
deriving Repr, DecidableEq

/-- The line number stored after the colon of a semantic-error string
(what `stoi(err.substr(pos + 1))` recovers in `check_semantic_errors`). -/
def SemErr.line : SemErr → Nat
  | .code3 ln => ln
  | .code4 ln => ln

-- ============================================================
-- Semantic Error Aggregator (Parser::check_semantic_errors)
-- ============================================================

/-- Embeds `Parser::check_semantic_errors` (parser.cc lines 717-768).
Returns `none` when no error class has findings (the program proceeds),
and `some (label, lines)` for the single reported error line: the fixed
label number and the space-separated sorted line numbers.  The source
sorts with `std::sort` and prints; it never removes duplicates.  For
classes 3/4 the source inspects the *first* string in `semantic_errors`
to choose the label, then prints the (sorted) lines of *all* entries of
the vector, both classes merged.  The source's final `else` branch
(first entry matching neither prefix) is unreachable because only
code-3 and code-4 strings are ever pushed. -/
def check_semantic_errors (duplicate_decl_lines invalid_monomial_lines : List Nat)
    (semantic_errors : List SemErr) : Option (Nat × List Nat) :=
  if duplicate_decl_lines ≠ [] then
    some (1, List.insertionSort (· ≤ ·) duplicate_decl_lines)
  else if invalid_monomial_lines ≠ [] then
    some (2, List.insertionSort (· ≤ ·) invalid_monomial_lines)
  else
    match semantic_errors with
    | [] => none
    | e :: _ =>
      let lines := List.insertionSort (· ≤ ·) (semantic_errors.map SemErr.line)
      match e with
      | .code3 _ => some (3, lines)
      | .code4 _ => some (4, lines)

-- ============================================================
-- Degree computation (computeDegree, outputPolynomialDegrees)
-- ============================================================

/-- Embeds `computeDegree` (parser.cc lines 919-951) on a non-null
expression node. -/
def computeDegree : Expr → Int
  | .const _ => 0
  | .var _ _ => 1
  | .add l r => max (computeDegree l) (computeDegree r)
  | .sub l r => max (computeDegree l) (computeDegree r)
  | .mul l r => computeDegree l + computeDegree r
  | .pow b e => computeDegree b * (e : Int)
  | .call _ _ => 0

/-- `computeDegree` on a possibly-missing body: `polyExprs[polyName]`
with `std::map::operator[]` yields a null pointer for a missing key and
`computeDegree(nullptr)` returns 0 (the `if (!expr) return 0;` guard). -/
def degOf : Option Expr → Int
  | none => 0
  | some e => computeDegree e

/-- The comparison `std::sort` applies to the `(line, name)` pairs built
in `outputPolynomialDegrees`: lexicographic `operator<` on
`std::pair<int, std::string>`, taken here as its reflexive closure so
that sortedness can be stated with `List.Sorted`. -/
def pairLe (a b : Nat × String) : Prop :=
  a.1 < b.1 ∨ (a.1 = b.1 ∧ a.2 ≤ b.2)

instance : DecidableRel pairLe := fun a b => by
  unfold pairLe; infer_instance

instance : IsTotal (Nat × String) pairLe := by
  constructor
  intro a b
  rcases Nat.lt_trichotomy a.1 b.1 with h | h | h
  · exact Or.inl (Or.inl h)
  · rcases le_total a.2 b.2 with h2 | h2
    · exact Or.inl (Or.inr ⟨h, h2⟩)
    · exact Or.inr (Or.inr ⟨h.symm, h2⟩)
  · exact Or.inr (Or.inl h)

instance : IsTrans (Nat × String) pairLe := by
  constructor
  intro a b c hab hbc
  rcases hab with h1 | ⟨h1, h1s⟩
  · rcases hbc with h2 | ⟨h2, _⟩
    · exact Or.inl (h1.trans h2)
    · exact Or.inl (h2 ▸ h1)
  · rcases hbc with h2 | ⟨h2, h2s⟩
    · exact Or.inl (h1 ▸ h2)
    · exact Or.inr ⟨h1.trans h2, h1s.trans h2s⟩

/-- The `polyOrder` vector of `outputPolynomialDegrees` (parser.cc lines
954-965): the `(first-declaration line, name)` pairs collected from
`poly_decl_first_line`, sorted ascending.  `poly_decl_first_line` is
passed as its entry list `(name, line)`; being a `std::map` its keys are
distinct. -/
def polyDegreeOrder (poly_decl_first_line : List (String × Nat)) : List (Nat × String) :=
  List.insertionSort pairLe (poly_decl_first_line.map (fun p => (p.2, p.1)))

/-- The emission loop of `outputPolynomialDegrees`: one `(name, degree)`
entry per sorted `(line, name)` pair. -/
def outputPolynomialDegrees (poly_decl_first_line : List (String × Nat))
    (polyExprs : String → Option Expr) : List (String × Int) :=
  (polyDegreeOrder poly_decl_first_line).map (fun p => (p.2, degOf (polyExprs p.2)))

/-- The exact text printed for one entry: `cout << polyName << ": " << degree`. -/
def renderDegrees (out : List (String × Int)) : List String :=
  out.map (fun p => p.1 ++ ": " ++ toString p.2)

-- ============================================================
-- Runtime evaluation (Expr::evaluate, evaluatePolyCall)
-- ============================================================

/-- The loop body of `PowExpr::evaluate` (parser.cc lines 88-94):
`res = 1; for (i = 0; i < exponent; i++) res *= bval;`. -/
def powLoop (bval : Int) (exponent : Nat) : Int :=
  (List.range exponent).foldl (fun res _ => res * bval) 1

/-- Pairs each parameter with its positional argument, padding missing
trailing arguments with zero: `argVal = (i < args.size() ? args[i] : 0)`
from `evaluatePolyCall` (parser.cc line 133). -/
def zipArgs : List String → List Int → List (String × Int)
  | [], _ => []
  | p :: ps, [] => (p, 0) :: zipArgs ps []
  | p :: ps, a :: as' => (p, a) :: zipArgs ps as'

/-- The fresh environment `env[params[i]] = argVal` built in
`evaluatePolyCall` (parser.cc lines 131-135): a `std::map` insertion per
parameter, in index order, so a later index overwrites an earlier one
with the same name.  A lookup of an absent name reads as zero, exactly
as `VarExpr::evaluate` treats a missing map entry. -/
def buildEnv (params : List String) (args : List Int) : String → Int :=
  (zipArgs params args).foldl
    (fun env pa => fun n => if n = pa.1 then pa.2 else env n)
    (fun _ => 0)

/-- The two global polynomial tables read by `evaluatePolyCall`:
`poly_declarations` (name to parameter list) and `polyExprs`
(name to body AST). -/
structure PolyTables where
  poly_declarations : String → Option (List String)
  polyExprs : String → Option Expr

mutual

/-- Embeds the virtual `Expr::evaluate` methods (parser.cc lines 39-114).
The extra `fuel` argument bounds the number of jumps through the
`polyExprs` table; the C++ recursion has no such bound, but every body
the polynomial grammar can produce is call-free, so one unit of fuel per
nested call level is exact for every parsed program and the fuel-zero
case is unreachable there. -/
def evaluate (tbl : PolyTables) : Nat → Expr → (String → Int) → Int
  | _, .const v, _ => v
  | _, .var n _, env => env n
  | fuel, .add l r, env => evaluate tbl fuel l env + evaluate tbl fuel r env
  | fuel, .sub l r, env => evaluate tbl fuel l env - evaluate tbl fuel r env
  | fuel, .mul l r, env => evaluate tbl fuel l env * evaluate tbl fuel r env
  | fuel, .pow b e, env => powLoop (evaluate tbl fuel b env) e
  | 0, .call _ _, _ => 0
  | fuel + 1, .call n args, env => evaluatePolyCall tbl fuel n (evalArgs tbl (fuel + 1) args env)
termination_by fuel e _ => (fuel, sizeOf e)

/-- Argument evaluation in `CallExpr::evaluate` (parser.cc lines 104-107):
each argument is evaluated in the caller's current environment. -/
def evalArgs (tbl : PolyTables) : Nat → List Expr → (String → Int) → List Int
  | _, [], _ => []
  | fuel, a :: as', env => evaluate tbl fuel a env :: evalArgs tbl fuel as' env
termination_by fuel l _ => (fuel, sizeOf l)

/-- Embeds `evaluatePolyCall` (parser.cc lines 126-137): unknown
polynomials (absent from either table) evaluate to zero; otherwise the
body is evaluated in the fresh positional binding only. -/
def evaluatePolyCall (tbl : PolyTables) (fuel : Nat) (polyName : String)
    (args : List Int) : Int :=
  match tbl.poly_declarations polyName, tbl.polyExprs polyName with
  | some params, some body => evaluate tbl fuel body (buildEnv params args)
  | _, _ => 0
termination_by (fuel + 1, 0)

end

-- ============================================================
-- Polynomial declaration processing (parse_poly_decl, parse_poly_header)
-- ============================================================

mutual

/-- The identifier occurrences of an expression, with their token line
numbers, in left-to-right source order (the AST built by the polynomial
grammar lists factors left-associatively, so an in-order walk visits
identifier tokens in the order the parser consumed them). -/
def varOccs : Expr → List (String × Nat)
  | .const _ => []
  | .var n ln => [(n, ln)]
  | .add l r => varOccs l ++ varOccs r
  | .sub l r => varOccs l ++ varOccs r
  | .mul l r => varOccs l ++ varOccs r
  | .pow b _ => varOccs b
  | .call _ args => varOccsList args

/-- `varOccs` over an argument list, left to right. -/
def varOccsList : List Expr → List (String × Nat)
  | [] => []
  | a :: as' => varOccs a ++ varOccsList as'

end

/-- The invalid-monomial side effect of parsing a polynomial body
(`parse_poly_factor`, parser.cc lines 385-391): each identifier factor
absent from `current_poly_params` contributes its token line, in parse
order. -/
def bodyInvalidLines (params : List String) (body : Expr) : List Nat :=
  ((varOccs body).filter (fun occ => occ.1 ∉ params)).map (fun occ => occ.2)

/-- `PolyHeader` (parser.h): name, declaration line, parameter list. -/
structure PolyHeader where
  name : String
  line : Nat
  params : List String

/-- One polynomial declaration as consumed from the source text:
its header tokens (name, line, the parenthesized parameter list when
present) and its body expression. -/
structure PolyDecl where
  name : String
  line : Nat
  paramsOpt : Option (List String)
  body : Expr

/-- The parser's global tables touched while the POLY section is parsed. -/
structure PolyState where
  poly_declarations : String → Option (List String)
  polyExprs : String → Option Expr
  poly_decl_first_line : String → Option Nat
  duplicate_decl_lines : List Nat
  invalid_monomial_lines : List Nat

/-- The initial (empty) global tables. -/
def initPolyState : PolyState :=
  { poly_declarations := fun _ => none
    polyExprs := fun _ => none
    poly_decl_first_line := fun _ => none
    duplicate_decl_lines := []
    invalid_monomial_lines := [] }

/-- Embeds `Parser::parse_poly_header` (parser.cc lines 304-319): a
missing parenthesized list yields the single default parameter `x`, and
`poly_declarations[header.name] = header.params` is assigned
unconditionally, for duplicates too. -/
def parse_poly_header (st : PolyState) (d : PolyDecl) : PolyHeader × PolyState :=
  let params := match d.paramsOpt with
    | some ps => ps
    | none => ["x"]
  let header : PolyHeader := { name := d.name, line := d.line, params := params }
  (header,
   { st with poly_declarations := fun n =>
       if n = header.name then some header.params else st.poly_declarations n })

/-- Embeds `Parser::parse_poly_decl` (parser.cc lines 286-301): parse
the header, fully parse the body against the header's parameter list
(recording invalid-monomial lines), then either record the declaration
(first occurrence) or only append the duplicate's line, leaving the
stored body and first line untouched and discarding the freshly built
body AST. -/
def parse_poly_decl (st : PolyState) (d : PolyDecl) : PolyState :=
  let (header, st1) := parse_poly_header st d
  let st2 := { st1 with invalid_monomial_lines :=
    st1.invalid_monomial_lines ++ bodyInvalidLines header.params d.body }
  if (st2.poly_decl_first_line header.name).isSome then
    { st2 with duplicate_decl_lines := st2.duplicate_decl_lines ++ [header.line] }
  else
    { st2 with
      poly_decl_first_line := fun n =>
        if n = header.name then some header.line else st2.poly_decl_first_line n
      polyExprs := fun n =>
        if n = header.name then some d.body else st2.polyExprs n }

/-- Embeds `Parser::parse_poly_decl_list` (parser.cc lines 278-283):
the declarations are processed left to right. -/
def parse_poly_decl_list (st : PolyState) (ds : List PolyDecl) : PolyState :=
  ds.foldl parse_poly_decl st

/-- The call-site semantic check shared by `parse_poly_eval_expr`,
`parse_call_expr_from_token` and `parse_call_expr` (parser.cc lines
530-537, 612-618, 635-641): an undeclared callee records a code-3
finding at the call's line; a declared callee with the wrong number of
arguments records a code-4 finding there. -/
def callFinding (poly_declarations : String → Option (List String))
    (polyName : String) (nargs : Nat) (eval_line : Nat) : List SemErr :=
  match poly_declarations polyName with
  | some params => if nargs ≠ params.length then [.code4 eval_line] else []
  | none => [.code3 eval_line]

-- ============================================================
-- Static analysis: uninitialized-use (checkUninitializedWarnings)
-- ============================================================

mutual

/-- Embeds `check_expr_for_uninit` (parser.cc lines 773-814): the lines
appended to the warning vector while walking one expression with the
given set of initialized names.  The `unordered_set` is modelled by a
membership list. -/
def check_expr_for_uninit (initVars : List String) : Expr → List Nat
  | .const _ => []
  | .var n ln => if n ∈ initVars then [] else [ln]
  | .add l r => check_expr_for_uninit initVars l ++ check_expr_for_uninit initVars r
  | .sub l r => check_expr_for_uninit initVars l ++ check_expr_for_uninit initVars r
  | .mul l r => check_expr_for_uninit initVars l ++ check_expr_for_uninit initVars r
  | .pow b _ => check_expr_for_uninit initVars b
  | .call _ args => check_expr_for_uninit_args initVars args

/-- The `CALL_EXPR` case of `check_expr_for_uninit`: walk the argument
expressions left to right. -/
def check_expr_for_uninit_args (initVars : List String) : List Expr → List Nat
  | [] => []
  | a :: as' => check_expr_for_uninit initVars a ++ check_expr_for_uninit_args initVars as'

end

/-- The statement loop of `checkUninitializedWarnings` (parser.cc lines
900-908): `INPUT` adds its variable to the initialized set, `OUTPUT` is
skipped entirely, and an assignment first checks its right-hand side
against the current set and only then adds its left-hand variable. -/
def uninitScan : List Stmt → List String → List Nat → List Nat
  | [], _, warningLines => warningLines
  | .input v :: rest, initVars, warningLines =>
    uninitScan rest (v :: initVars) warningLines
  | .output _ :: rest, initVars, warningLines =>
    uninitScan rest initVars warningLines
  | .assign v _ rhs :: rest, initVars, warningLines =>
    uninitScan rest (v :: initVars) (warningLines ++ check_expr_for_uninit initVars rhs)

/-- Embeds `checkUninitializedWarnings` (parser.cc lines 897-916):
`none` when the warning list stayed empty (nothing printed), otherwise
the sorted line numbers printed after the fixed `Warning Code 1:` label. -/
def checkUninitializedWarnings (stmts : List Stmt) : Option (List Nat) :=
  let warningLines := uninitScan stmts [] []
  if warningLines = [] then none
  else some (List.insertionSort (· ≤ ·) warningLines)

-- ============================================================
-- Static analysis: useless assignments (checkUselessAssignments)
-- ============================================================

mutual

/-- Embeds `exprUsesVar` (parser.cc lines 817-851). -/
def exprUsesVar (v : String) : Expr → Bool
  | .const _ => false
  | .var n _ => n = v
  | .add l r => exprUsesVar v l || exprUsesVar v r
  | .sub l r => exprUsesVar v l || exprUsesVar v r
  | .mul l r => exprUsesVar v l || exprUsesVar v r
  | .pow b _ => exprUsesVar v b
  | .call _ args => exprUsesVarArgs v args

/-- The `CALL_EXPR` case of `exprUsesVar`: any argument using the
variable counts. -/
def exprUsesVarArgs (v : String) : List Expr → Bool
  | [] => false
  | a :: as' => exprUsesVar v a || exprUsesVarArgs v as'

end

/-- The inner forward scan of `checkUselessAssignments` (parser.cc lines
861-883), deciding whether the value assigned to `v` is used by the
subsequent statements: a re-assignment of `v` decides by whether its
right-hand side reads `v`; an `INPUT` of `v` decides unused; an `OUTPUT`
of `v` decides used; an assignment to another variable whose right-hand
side reads `v` decides used; otherwise the scan continues, and running
out of statements leaves the `used` flag false. -/
def assignUsed (v : String) : List Stmt → Bool
  | [] => false
  | .assign v' _ rhs :: rest =>
    if v' = v then exprUsesVar v rhs
    else if exprUsesVar v rhs then true
    else assignUsed v rest
  | .input v' :: rest =>
    if v' = v then false else assignUsed v rest
  | .output v' :: rest =>
    if v' = v then true else assignUsed v rest

/-- The outer loop of `checkUselessAssignments` (parser.cc lines
856-886): each assignment whose forward scan found no use contributes
its line, in statement order. -/
def uselessLines : List Stmt → List Nat
  | [] => []
  | .assign v ln _ :: rest =>
    (if assignUsed v rest then [] else [ln]) ++ uselessLines rest
  | _ :: rest => uselessLines rest

/-- Embeds `checkUselessAssignments` (parser.cc lines 854-894): `none`
when no assignment is useless (nothing printed), otherwise the sorted
line numbers printed after the fixed `Warning Code 2:` label. -/
def checkUselessAssignments (stmts : List Stmt) : Option (List Nat) :=
  let lines := uselessLines stmts
  if lines = [] then none
  else some (List.insertionSort (· ≤ ·) lines)

-- ============================================================
-- Task selection (Parser::parse_num_list) and main dispatch
-- ============================================================

/-- The four global task flags (parser.cc lines 16-19). -/
structure TaskFlags where
  runTask2 : Bool
  runTask3 : Bool
  runTask4 : Bool
  runTask5 : Bool
deriving Repr, DecidableEq

/-- The effect of one iteration of `Parser::parse_num_list`
(parser.cc lines 253-267) on the flags: four independent `if`s. -/
def setTaskFlag (f : TaskFlags) (task : Int) : TaskFlags :=
  let f := if task = 2 then { f with runTask2 := true } else f
  let f := if task = 3 then { f with runTask3 := true } else f
  let f := if task = 4 then { f with runTask4 := true } else f
  if task = 5 then { f with runTask5 := true } else f

/-- Embeds the whole recursion of `Parser::parse_num_list` over the NUM
tokens of the TASKS section, starting from the all-false globals. -/
def parse_num_list (nums : List Int) : TaskFlags :=
  nums.foldl setTaskFlag ⟨false, false, false, false⟩

/-- The post-processing dispatch of `main` (parser.cc lines 982-994):
the selected tasks run in the fixed order 2, 3, 4, 5, regardless of how
the TASKS section listed them. -/
def tasksRun (f : TaskFlags) : List Nat :=
  (if f.runTask2 then [2] else []) ++ (if f.runTask3 then [3] else []) ++
    (if f.runTask4 then [4] else []) ++ (if f.runTask5 then [5] else [])

-- ============================================================
-- Token-level argument-expression parsing (parse_argument_expr,
-- parse_call_expr_from_token, parse_poly_eval_expr)
-- ============================================================

/-- The token type tags of the external lexer (lexer.h). -/
inductive TokenType where
  | END_OF_FILE | ID | NUM | LPAREN | RPAREN | COMMA | PLUS | MINUS
  | POWER | EQUAL | SEMICOLON | TASKS | POLY | EXECUTE | INPUTS
  | INPUT | OUTPUT
deriving Repr, DecidableEq

/-- A lexer token: type tag, lexeme string, source line number. -/
structure Token where
  token_type : TokenType
  lexeme : String
  line_no : Nat
deriving Repr, DecidableEq

/-- The token the lexer hands out once the input is exhausted. -/
def eofToken : Token := { token_type := .END_OF_FILE, lexeme := "", line_no := 0 }

/-- `lexer.GetToken()` on a token-list model of the stream: past the end
the lexer keeps returning an end-of-file token. -/
def getToken (ts : List Token) : Token × List Token :=
  match ts with
  | [] => (eofToken, [])
  | t :: rest => (t, rest)

/-- `lexer.peek(1)`. -/
def peek1 (ts : List Token) : Token := ts.headD eofToken

/-- `lexer.peek(2)`. -/
def peek2 (ts : List Token) : Token := (ts.drop 1).headD eofToken

/-- `Parser::expect` (parser.cc lines 229-234): consume one token and
demand its type; `none` is the fatal syntax-error path. -/
def expect (expected_type : TokenType) (ts : List Token) : Option (Token × List Token) :=
  let (t, rest) := getToken ts
  if t.token_type = expected_type then some (t, rest) else none

/-- `atoi` on a NUM lexeme.  The lexer's NUM lexemes are non-empty
digit strings, on which `atoi` is plain base-10 accumulation. -/
def atoi (s : String) : Int :=
  Int.ofNat (s.data.foldl (fun acc c => acc * 10 + (c.toNat - 48)) 0)

/-- Outcome of a token-level parse: success (with the built AST value,
the semantic findings pushed onto `semantic_errors`, and the remaining
tokens), the fatal syntax-error exit, or fuel exhaustion (an artifact of
the embedding only; the source recursion is bounded by the nesting depth
of the token stream). -/
inductive PRes (α : Type) where
  | ok (val : α) (errs : List SemErr) (rest : List Token)
  | fail
  | fuelOut
deriving Repr

mutual

/-- Embeds `Parser::parse_argument_expr` (parser.cc lines 499-516): an
argument is an identifier followed by `(` (a nested call), a bare
identifier, or a numeral; every other lookahead is a syntax error. -/
def parse_argument_expr (decls : String → Option (List String)) :
    Nat → List Token → PRes Expr
  | 0, _ => .fuelOut
  | fuel + 1, ts =>
    let t := peek1 ts
    match t.token_type with
    | .ID =>
      if (peek2 ts).token_type = .LPAREN then
        match expect .ID ts with
        | some (idToken, ts1) => parse_call_expr_from_token decls fuel idToken ts1
        | none => .fail
      else
        match expect .ID ts with
        | some (t1, ts1) => .ok (.var t1.lexeme t1.line_no) [] ts1
        | none => .fail
    | .NUM =>
      match expect .NUM ts with
      | some (t1, ts1) => .ok (.const (atoi t1.lexeme)) [] ts1
      | none => .fail
    | _ => .fail

/-- Embeds `Parser::parse_call_expr_from_token` (parser.cc lines
519-538): `(`, one or more comma-separated arguments, `)`, then the
call-site semantic check against `poly_declarations`. -/
def parse_call_expr_from_token (decls : String → Option (List String)) :
    Nat → Token → List Token → PRes Expr
  | 0, _, _ => .fuelOut
  | fuel + 1, idToken, ts =>
    match expect .LPAREN ts with
    | none => .fail
    | some (_, ts1) =>
      match parse_argument_expr decls fuel ts1 with
      | .ok firstArg errs1 ts2 =>
        match parse_more_args decls fuel ts2 with
        | .ok restArgs errs2 ts3 =>
          match expect .RPAREN ts3 with
          | none => .fail
          | some (_, ts4) =>
            let args := firstArg :: restArgs
            .ok (.call idToken.lexeme args)
              (errs1 ++ errs2 ++ callFinding decls idToken.lexeme args.length idToken.line_no)
              ts4
        | .fail => .fail
        | .fuelOut => .fuelOut
      | .fail => .fail
      | .fuelOut => .fuelOut
termination_by structural fuel _ _ => fuel

/-- The `while (lexer.peek(1).token_type == COMMA)` argument loop shared
by `parse_call_expr_from_token` and `parse_poly_eval_expr`. -/
def parse_more_args (decls : String → Option (List String)) :
    Nat → List Token → PRes (List Expr)
  | 0, _ => .fuelOut
  | fuel + 1, ts =>
    if (peek1 ts).token_type = .COMMA then
      match expect .COMMA ts with
      | none => .fail
      | some (_, ts1) =>
        match parse_argument_expr decls fuel ts1 with
        | .ok arg errs1 ts2 =>
          match parse_more_args decls fuel ts2 with
          | .ok args errs2 ts3 => .ok (arg :: args) (errs1 ++ errs2) ts3
          | .fail => .fail
          | .fuelOut => .fuelOut
        | .fail => .fail
        | .fuelOut => .fuelOut
    else .ok [] [] ts
termination_by structural fuel _ => fuel

end

/-- Embeds `Parser::parse_poly_eval_expr` (parser.cc lines 599-620), the
right-hand side of an execution-script assignment: `ID` `(` arguments
`)` with the same call-site semantic check.  The insertion into
`used_polynomials` is dropped: that set is never read by any behavior
under study. -/
def parse_poly_eval_expr (decls : String → Option (List String))
    (fuel : Nat) (ts : List Token) : PRes Expr :=
  match expect .ID ts with
  | none => .fail
  | some (t, ts1) =>
    match expect .LPAREN ts1 with
    | none => .fail
    | some (_, ts2) =>
      match parse_argument_expr decls fuel ts2 with
      | .ok firstArg errs1 ts3 =>
        match parse_more_args decls fuel ts3 with
        | .ok restArgs errs2 ts4 =>
          match expect .RPAREN ts4 with
          | none => .fail
          | some (_, ts5) =>
            let args := firstArg :: restArgs
            .ok (.call t.lexeme args)
              (errs1 ++ errs2 ++ callFinding decls t.lexeme args.length t.line_no)
              ts5
        | .fail => .fail
        | .fuelOut => .fuelOut
      | .fail => .fail
      | .fuelOut => .fuelOut

mutual

/-- The shapes `parse_argument_expr` can build: numerals, bare
identifiers, and calls whose arguments again have these shapes.  Stated
as a Boolean predicate on the expression AST. -/
def argShapeB : Expr → Bool
  | .const _ => true
  | .var _ _ => true
  | .add _ _ => false
  | .sub _ _ => false
  | .mul _ _ => false
  | .pow _ _ => false
  | .call _ args => argShapeListB args

/-- `argShapeB` over an argument list. -/
def argShapeListB : List Expr → Bool
  | [] => true
  | a :: as' => argShapeB a && argShapeListB as'

end

-- ============================================================
-- Concrete example inputs used by the theorems below
-- ============================================================

/-- The tables after declaring `f(x) = x + 1;` on line 2. -/
def evalExampleTables : PolyTables :=
  { poly_declarations := fun n => if n = "f" then some ["x"] else none
    polyExprs := fun n => if n = "f" then some (.add (.var "x" 2) (.const 1)) else none }

/-- A declaration table with `f(x)` and `g(y)` declared. -/
def declsFG : String → Option (List String) :=
  fun n => if n = "f" then some ["x"] else if n = "g" then some ["y"] else none

/-- The token stream of `f(x + 1)` (all on line 4), the right-hand side
of an assignment whose argument is a sum. -/
def sumArgToks : List Token :=
  [⟨.ID, "f", 4⟩, ⟨.LPAREN, "(", 4⟩, ⟨.ID, "x", 4⟩, ⟨.PLUS, "+", 4⟩,
   ⟨.NUM, "1", 4⟩, ⟨.RPAREN, ")", 4⟩, ⟨.SEMICOLON, ";", 4⟩]

/-- The token stream of `f((2))` (all on line 4), the right-hand side of
an assignment whose argument is parenthesized. -/
def parenArgToks : List Token :=
  [⟨.ID, "f", 4⟩, ⟨.LPAREN, "(", 4⟩, ⟨.LPAREN, "(", 4⟩, ⟨.NUM, "2", 4⟩,
   ⟨.RPAREN, ")", 4⟩, ⟨.RPAREN, ")", 4⟩, ⟨.SEMICOLON, ";", 4⟩]

/-- The token stream of `f(g(1))` (all on line 4): a nested call as an
argument. -/
def nestedCallToks : List Token :=
  [⟨.ID, "f", 4⟩, ⟨.LPAREN, "(", 4⟩, ⟨.ID, "g", 4⟩, ⟨.LPAREN, "(", 4⟩,
   ⟨.NUM, "1", 4⟩, ⟨.RPAREN, ")", 4⟩, ⟨.RPAREN, ")", 4⟩, ⟨.SEMICOLON, ";", 4⟩]

/-- A first declaration `f(x) = x;` on line 3, for exercising the
duplicate-declaration path. -/
def dupDeclFirst : PolyDecl := ⟨"f", 3, some ["x"], .var "x" 3⟩

/-- A conflicting re-declaration `f(y, z) = y + z;` on line 4. -/
def dupDeclSecond : PolyDecl := ⟨"f", 4, some ["y", "z"], .add (.var "y" 4) (.var "z" 4)⟩

-- ============================================================
-- Theorems
-- ============================================================

/-- C1 counterexample.  The claim predicts that whenever both
undeclared-call (code 3) and arity-mismatch (code 4) findings exist and
classes 1-2 are empty, exactly the undeclared-call lines are reported
under the class-3 label - here `some (3, [7])`.  The code instead keys
the label on the chronologically first finding and merges the lines of
both classes: it reports the class-4 label with both lines.  This input
arises from a program whose execution script first calls a declared
polynomial with the wrong arity (line 5) and then calls an undeclared
polynomial (line 7). -/
theorem C1_counterexample :
    check_semantic_errors [] [] [.code4 5, .code3 7] ≠ some (3, [7]) ∧
    check_semantic_errors [] [] [.code4 5, .code3 7] = some (4, [5, 7]) := by
  constructor <;> decide

/-- C1 (amended): the semantic-error aggregator checks duplicate-
declaration lines first, then invalid-monomial lines, reporting only the
first non-empty class and terminating.  If both of those classes are
empty and any call findings exist, it reports a single line whose label
is the class (3 = undeclared call, 4 = arity mismatch) of the
chronologically first call finding and whose numbers are the sorted
lines of all call findings of both classes merged; with no findings at
all, nothing is reported. -/
theorem C1_semantic_error_priority (dup inv : List Nat) (sems : List SemErr) :
    (dup ≠ [] →
      check_semantic_errors dup inv sems = some (1, List.insertionSort (· ≤ ·) dup)) ∧
    (dup = [] → inv ≠ [] →
      check_semantic_errors dup inv sems = some (2, List.insertionSort (· ≤ ·) inv)) ∧
    (dup = [] → inv = [] → sems = [] → check_semantic_errors dup inv sems = none) ∧
    (∀ e rest, dup = [] → inv = [] → sems = e :: rest →
      check_semantic_errors dup inv sems =
        some ((match e with | .code3 _ => 3 | .code4 _ => 4),
          List.insertionSort (· ≤ ·) (sems.map SemErr.line))) := by
  refine ⟨fun h => ?_, fun h1 h2 => ?_, fun h1 h2 h3 => ?_, fun e rest h1 h2 h3 => ?_⟩
  · simp [check_semantic_errors, h]
  · simp [check_semantic_errors, h1, h2]
  · simp [check_semantic_errors, h1, h2, h3]
  · subst h1; subst h2; subst h3
    cases e <;> simp [check_semantic_errors]

/-- C1 witness: the amended theorem applied to a merged code-4-first
program. -/
theorem C1_semantic_error_priority_witness :
    check_semantic_errors [] [] [.code4 5, .code3 7] = some (4, [5, 7]) := by
  have h := (C1_semantic_error_priority [] [] [.code4 5, .code3 7]).2.2.2
    (.code4 5) [.code3 7] rfl rfl rfl
  simpa using h

/-- C4 counterexample.  The claim predicts that the reported line list
never repeats a line number; but the aggregator only sorts, it never
dedupes.  Three declarations of the same polynomial written on one
source line (line 3) yield `duplicate_decl_lines = [3, 3]`, and the
report repeats line 3. -/
theorem C4_counterexample :
    check_semantic_errors [3, 3] [] [] = some (1, [3, 3]) ∧
    ¬ ([3, 3] : List Nat).Nodup := by
  constructor <;> decide

/-- C4 (amended): the aggregator sorts the collected line numbers of the
reported class but does not dedupe them: the reported list is a sorted
permutation of the collected findings' lines (for classes 3/4, of both
call-finding classes merged), so a line collected twice is printed
twice. -/
theorem C4_report_sorted_not_deduped (dup inv : List Nat) (sems : List SemErr)
    (lbl : Nat) (lines : List Nat)
    (h : check_semantic_errors dup inv sems = some (lbl, lines)) :
    lines.Sorted (· ≤ ·) ∧
    ((lbl = 1 ∧ lines.Perm dup) ∨ (lbl = 2 ∧ lines.Perm inv) ∨
      ((lbl = 3 ∨ lbl = 4) ∧ lines.Perm (sems.map SemErr.line))) := by
  by_cases h1 : dup = []
  · by_cases h2 : inv = []
    · subst h1; subst h2
      match hs : sems with
      | [] => simp [check_semantic_errors] at h
      | .code3 l :: rest =>
        subst hs
        simp only [check_semantic_errors, ne_eq, not_true_eq_false, if_false,
          Option.some.injEq, Prod.mk.injEq] at h
        obtain ⟨hlbl, hlines⟩ := h
        subst hlines
        exact ⟨List.sorted_insertionSort _ _,
          Or.inr (Or.inr ⟨Or.inl hlbl.symm, List.perm_insertionSort _ _⟩)⟩
      | .code4 l :: rest =>
        subst hs
        simp only [check_semantic_errors, ne_eq, not_true_eq_false, if_false,
          Option.some.injEq, Prod.mk.injEq] at h
        obtain ⟨hlbl, hlines⟩ := h
        subst hlines
        exact ⟨List.sorted_insertionSort _ _,
          Or.inr (Or.inr ⟨Or.inr hlbl.symm, List.perm_insertionSort _ _⟩)⟩
    · simp only [check_semantic_errors, h1, h2, ne_eq, not_true_eq_false, if_false,
        not_false_eq_true, if_true, Option.some.injEq, Prod.mk.injEq] at h
      obtain ⟨hlbl, hlines⟩ := h
      subst hlines
      exact ⟨List.sorted_insertionSort _ _,
        Or.inr (Or.inl ⟨hlbl.symm, List.perm_insertionSort _ _⟩)⟩
  · simp only [check_semantic_errors, h1, ne_eq, not_false_eq_true, if_true,
      Option.some.injEq, Prod.mk.injEq] at h
    obtain ⟨hlbl, hlines⟩ := h
    subst hlines
    exact ⟨List.sorted_insertionSort _ _,
      Or.inl ⟨hlbl.symm, List.perm_insertionSort _ _⟩⟩

/-- C2 counterexample.  The claim predicts that a second declaration of
the same name does not overwrite the stored parameter list.  But
`parse_poly_header` assigns `poly_declarations[header.name] =
header.params` unconditionally, so after `f(x) = x;` (line 3) followed
by `f(y, z) = y + z;` (line 4) the stored parameter list is the
duplicate's `[y, z]`, not the first declaration's `[x]`. -/
theorem C2_counterexample :
    (parse_poly_decl_list initPolyState [dupDeclFirst, dupDeclSecond]).poly_declarations "f"
      = some ["y", "z"] ∧
    (some ["y", "z"] : Option (List String)) ≠ some ["x"] := by
  constructor <;> decide

/-- C2 (amended): a name's body and first-declaration line are fixed at
the first successful declaration; a second declaration of the same name
records its line as a duplicate, leaves the stored body and first line
untouched, and its right-hand side is still fully parsed (its
invalid-monomial side effects are recorded against the duplicate's own
parameter list) and the resulting AST discarded - but the parameter
table entry is overwritten with the duplicate's parameter list. -/
theorem C2_first_decl_wins_except_params (st : PolyState) (d : PolyDecl)
    (h : (st.poly_decl_first_line d.name).isSome = true) :
    (parse_poly_decl st d).polyExprs = st.polyExprs ∧
    (parse_poly_decl st d).poly_decl_first_line = st.poly_decl_first_line ∧
    (parse_poly_decl st d).duplicate_decl_lines = st.duplicate_decl_lines ++ [d.line] ∧
    (parse_poly_decl st d).poly_declarations d.name = some (d.paramsOpt.getD ["x"]) ∧
    (parse_poly_decl st d).invalid_monomial_lines =
      st.invalid_monomial_lines ++ bodyInvalidLines (d.paramsOpt.getD ["x"]) d.body := by
  obtain ⟨name, line, paramsOpt, body⟩ := d
  cases paramsOpt <;>
    simp_all [parse_poly_decl, parse_poly_header, Option.getD]

/-- C2 witness: the amended theorem applied to the state after the first
declaration of `f` and the conflicting re-declaration. -/
theorem C2_first_decl_wins_except_params_witness :
    (parse_poly_decl (parse_poly_decl initPolyState dupDeclFirst) dupDeclSecond).polyExprs
      = (parse_poly_decl initPolyState dupDeclFirst).polyExprs ∧
    (parse_poly_decl (parse_poly_decl initPolyState dupDeclFirst) dupDeclSecond).poly_decl_first_line
      = (parse_poly_decl initPolyState dupDeclFirst).poly_decl_first_line ∧
    (parse_poly_decl (parse_poly_decl initPolyState dupDeclFirst) dupDeclSecond).duplicate_decl_lines
      = (parse_poly_decl initPolyState dupDeclFirst).duplicate_decl_lines ++ [dupDeclSecond.line] ∧
    (parse_poly_decl (parse_poly_decl initPolyState dupDeclFirst) dupDeclSecond).poly_declarations
        dupDeclSecond.name
      = some (dupDeclSecond.paramsOpt.getD ["x"]) ∧
    (parse_poly_decl (parse_poly_decl initPolyState dupDeclFirst) dupDeclSecond).invalid_monomial_lines
      = (parse_poly_decl initPolyState dupDeclFirst).invalid_monomial_lines ++
          bodyInvalidLines (dupDeclSecond.paramsOpt.getD ["x"]) dupDeclSecond.body :=
  C2_first_decl_wins_except_params (parse_poly_decl initPolyState dupDeclFirst)
    dupDeclSecond (by decide)

/-- C10: a declaration written without a parenthesized parameter list is
stored with exactly the single parameter `x`; consequently a later call
to it records an arity-mismatch finding exactly when it does not pass
exactly one argument, and every identifier other than `x` in its body
has its line recorded as an invalid monomial. -/
theorem C10_default_param_x (st : PolyState) (name : String) (line : Nat) (body : Expr) :
    (parse_poly_decl st ⟨name, line, none, body⟩).poly_declarations name = some ["x"] ∧
    (∀ nargs cline,
      callFinding (parse_poly_decl st ⟨name, line, none, body⟩).poly_declarations
          name nargs cline
        = if nargs = 1 then [] else [.code4 cline]) ∧
    (∀ occ ∈ varOccs body, occ.1 ≠ "x" →
      occ.2 ∈ (parse_poly_decl st ⟨name, line, none, body⟩).invalid_monomial_lines) := by
  have hdecl : (parse_poly_decl st ⟨name, line, none, body⟩).poly_declarations name
      = some ["x"] := by
    by_cases h : (st.poly_decl_first_line name).isSome <;>
      simp [parse_poly_decl, parse_poly_header, h]
  have hinv : (parse_poly_decl st ⟨name, line, none, body⟩).invalid_monomial_lines
      = st.invalid_monomial_lines ++ bodyInvalidLines ["x"] body := by
    by_cases h : (st.poly_decl_first_line name).isSome <;>
      simp [parse_poly_decl, parse_poly_header, h]
  refine ⟨hdecl, fun nargs cline => ?_, fun occ hocc hne => ?_⟩
  · rw [callFinding, hdecl]
    by_cases h1 : nargs = 1 <;> simp [h1]
  · rw [hinv]
    refine List.mem_append_right _ ?_
    refine List.mem_map.2 ⟨occ, List.mem_filter.2 ⟨hocc, ?_⟩, rfl⟩
    simpa using hne

/-- C10 witness: the theorem applied to `p = y + x;` declared with no
parameter list, where the identifier `y` on line 7 is not `x`. -/
theorem C10_default_param_x_witness :
    (parse_poly_decl initPolyState
        ⟨"p", 7, none, .add (.var "y" 7) (.var "x" 7)⟩).poly_declarations "p"
      = some ["x"] ∧
    callFinding (parse_poly_decl initPolyState
        ⟨"p", 7, none, .add (.var "y" 7) (.var "x" 7)⟩).poly_declarations "p" 2 9
      = [.code4 9] ∧
    7 ∈ (parse_poly_decl initPolyState
        ⟨"p", 7, none, .add (.var "y" 7) (.var "x" 7)⟩).invalid_monomial_lines := by
  have h := C10_default_param_x initPolyState "p" 7 (.add (.var "y" 7) (.var "x" 7))
  refine ⟨h.1, ?_, ?_⟩
  · have := h.2.1 2 9
    simpa using this
  · exact h.2.2 ("y", 7) (by simp [varOccs, varOccsList]) (by decide)

/-- Helper for C3: by strong induction on the fuel, every expression the
argument parser accepts - and every call expression built from an
already-consumed identifier token, and every element of the
comma-continuation list - is a numeral, an identifier, or a nested call
of such shapes. -/
theorem parse_argument_shape_aux (fuel : Nat) (decls : String → Option (List String)) :
    (∀ ts e errs rest,
      parse_argument_expr decls fuel ts = .ok e errs rest → argShapeB e = true) ∧
    (∀ tok ts e errs rest,
      parse_call_expr_from_token decls fuel tok ts = .ok e errs rest → argShapeB e = true) ∧
    (∀ ts es errs rest,
      parse_more_args decls fuel ts = .ok es errs rest → argShapeListB es = true) := by
  induction fuel with
  | zero =>
    exact ⟨fun ts e errs rest h => by simp [parse_argument_expr] at h,
           fun tok ts e errs rest h => by simp [parse_call_expr_from_token] at h,
           fun ts es errs rest h => by simp [parse_more_args] at h⟩
  | succ fuel ih =>
    obtain ⟨ihA, ihC, ihM⟩ := ih
    have hcall : ∀ tok ts e errs rest,
        parse_call_expr_from_token decls (fuel + 1) tok ts = .ok e errs rest →
        argShapeB e = true := by
      intro tok ts e errs rest h
      cases hLP : expect .LPAREN ts with
      | none => simp [parse_call_expr_from_token, hLP] at h
      | some p =>
        obtain ⟨tLP, ts1⟩ := p
        cases hA : parse_argument_expr decls fuel ts1 with
        | ok firstArg errs1 ts2 =>
          cases hM : parse_more_args decls fuel ts2 with
          | ok restArgs errs2 ts3 =>
            cases hRP : expect .RPAREN ts3 with
            | none => simp [parse_call_expr_from_token, hLP, hA, hM, hRP] at h
            | some q =>
              obtain ⟨tRP, ts4⟩ := q
              simp only [parse_call_expr_from_token, hLP, hA, hM, hRP] at h
              injection h with h1 h2 h3
              subst h1
              simp [argShapeB, argShapeListB, ihA _ _ _ _ hA, ihM _ _ _ _ hM]
          | fail => simp [parse_call_expr_from_token, hLP, hA, hM] at h
          | fuelOut => simp [parse_call_expr_from_token, hLP, hA, hM] at h
        | fail => simp [parse_call_expr_from_token, hLP, hA] at h
        | fuelOut => simp [parse_call_expr_from_token, hLP, hA] at h
    refine ⟨?_, hcall, ?_⟩
    · intro ts e errs rest h
      simp only [parse_argument_expr] at h
      split at h
      · split at h
        · split at h
          · exact ihC _ _ _ _ _ h
          · simp at h
        · split at h
          · injection h with h1 h2 h3
            subst h1
            simp [argShapeB]
          · simp at h
      · split at h
        · injection h with h1 h2 h3
          subst h1
          simp [argShapeB]
        · simp at h
      · simp at h
    · intro ts es errs rest h
      by_cases hPK : (peek1 ts).token_type = .COMMA
      · cases hC : expect .COMMA ts with
        | none => simp [parse_more_args, hPK, hC] at h
        | some p =>
          obtain ⟨tC, ts1⟩ := p
          cases hA : parse_argument_expr decls fuel ts1 with
          | ok arg errs1 ts2 =>
            cases hM : parse_more_args decls fuel ts2 with
            | ok args errs2 ts3 =>
              simp only [parse_more_args, hPK, hC, hA, hM, if_true, eq_self_iff_true] at h
              injection h with h1 h2 h3
              subst h1
              simp [argShapeListB, ihA _ _ _ _ hA, ihM _ _ _ _ hM]
            | fail => simp [parse_more_args, hPK, hC, hA, hM] at h
            | fuelOut => simp [parse_more_args, hPK, hC, hA, hM] at h
          | fail => simp [parse_more_args, hPK, hC, hA] at h
          | fuelOut => simp [parse_more_args, hPK, hC, hA] at h
      · simp only [parse_more_args, hPK, if_false] at h
        injection h with h1 h2 h3
        subst h1
        simp [argShapeListB]

/-- C3 counterexample.  The claim predicts that a call argument may be
an arbitrary expression of the polynomial-body grammar - a sum or a
parenthesized expression.  But `parse_argument_expr` only accepts an
identifier, a numeral, or a nested call: parsing the assignment
right-hand sides `f(x + 1)` and `f((2))` both hit the fatal
syntax-error exit (`.fail`, not fuel exhaustion), with `f` declared as
`f(x)`. -/
theorem C3_counterexample :
    parse_poly_eval_expr declsFG 10 sumArgToks = .fail ∧
    parse_poly_eval_expr declsFG 10 parenArgToks = .fail := by
  constructor <;>
    simp [parse_poly_eval_expr, parse_argument_expr, parse_call_expr_from_token,
      parse_more_args, expect, getToken, peek1, peek2, callFinding, atoi,
      declsFG, sumArgToks, parenArgToks, eofToken]

/-- C3 (amended): argument expressions of a polynomial call are built by
a restricted grammar, not the full polynomial-body grammar: every
successfully parsed argument is a numeral, a bare identifier, or a
nested polynomial call whose own arguments again have these shapes, so
calls may nest (as `f(g(1))` shows, parsed with no semantic findings)
but sums, differences, products and parenthesized expressions are
rejected as arguments. -/
theorem C3_argument_grammar_restricted :
    (∀ (decls : String → Option (List String)) (fuel : Nat) ts e errs rest,
      parse_argument_expr decls fuel ts = .ok e errs rest → argShapeB e = true) ∧
    parse_poly_eval_expr declsFG 10 nestedCallToks =
      .ok (.call "f" [.call "g" [.const 1]]) [] [⟨.SEMICOLON, ";", 4⟩] := by
  constructor
  · intro decls fuel ts e errs rest h
    exact (parse_argument_shape_aux fuel decls).1 ts e errs rest h
  · simp [parse_poly_eval_expr, parse_argument_expr, parse_call_expr_from_token,
      parse_more_args, expect, getToken, peek1, peek2, callFinding, atoi,
      declsFG, nestedCallToks, eofToken]

/-- C3 witness: the amended theorem's grammar restriction applied to the
concrete argument token `7`. -/
theorem C3_argument_grammar_restricted_witness :
    argShapeB (.const 7) = true :=
  C3_argument_grammar_restricted.1 declsFG 5 [⟨.NUM, "7", 1⟩] (.const 7) [] []
    (by simp [parse_argument_expr, expect, getToken, peek1, peek2, atoi, eofToken])

/-- C5: `computeDegree` satisfies exactly the claimed recurrences -
constants 0, variables 1, max under addition and subtraction, sum under
multiplication, exponent scaling under power, and 0 for any call - and
the degree report contains one `(name, degree-of-stored-body)` entry per
declared polynomial, in ascending first-declaration-line order, rendered
as `name: degree`. -/
theorem C5_degree_and_report :
    (∀ v, computeDegree (.const v) = 0) ∧
    (∀ n ln, computeDegree (.var n ln) = 1) ∧
    (∀ l r, computeDegree (.add l r) = max (computeDegree l) (computeDegree r)) ∧
    (∀ l r, computeDegree (.sub l r) = max (computeDegree l) (computeDegree r)) ∧
    (∀ l r, computeDegree (.mul l r) = computeDegree l + computeDegree r) ∧
    (∀ b e, computeDegree (.pow b e) = computeDegree b * (e : Int)) ∧
    (∀ n args, computeDegree (.call n args) = 0) ∧
    (∀ tbl exprs,
      (polyDegreeOrder tbl).Pairwise (fun a b => a.1 ≤ b.1) ∧
      (polyDegreeOrder tbl).Perm (tbl.map (fun p => (p.2, p.1))) ∧
      outputPolynomialDegrees tbl exprs
        = (polyDegreeOrder tbl).map (fun p => (p.2, degOf (exprs p.2))) ∧
      renderDegrees (outputPolynomialDegrees tbl exprs)
        = (outputPolynomialDegrees tbl exprs).map (fun p => p.1 ++ ": " ++ toString p.2)) := by
  refine ⟨fun v => rfl, fun n ln => rfl, fun l r => rfl, fun l r => rfl,
    fun l r => rfl, fun b e => rfl, fun n args => rfl,
    fun tbl exprs => ⟨?_, List.perm_insertionSort pairLe _, rfl, rfl⟩⟩
  have hs : List.Sorted pairLe (polyDegreeOrder tbl) :=
    List.sorted_insertionSort pairLe _
  exact hs.imp (fun hab => by
    rcases hab with h | ⟨h, _⟩
    · exact le_of_lt h
    · exact le_of_eq h)

/-- Helper for C6: the parameter names are exactly the keys of the
zipped parameter/argument pairs. -/
theorem zipArgs_keys : ∀ (params : List String) (args : List Int),
    (zipArgs params args).map Prod.fst = params
  | [], _ => rfl
  | _ :: ps, [] => by simp [zipArgs, zipArgs_keys ps []]
  | _ :: ps, _ :: as' => by simp [zipArgs, zipArgs_keys ps as']

/-- Helper for C6: folding environment updates over pairs whose keys
avoid `n` leaves the value at `n` unchanged. -/
theorem foldl_env_not_mem : ∀ (l : List (String × Int)) (e : String → Int) (n : String),
    n ∉ l.map Prod.fst →
    (l.foldl (fun env pa => fun m => if m = pa.1 then pa.2 else env m) e) n = e n
  | [], _, _, _ => rfl
  | pa :: l, e, n, h => by
    simp only [List.map_cons, List.mem_cons, not_or] at h
    rw [List.foldl_cons, foldl_env_not_mem l _ n h.2]
    simp [h.1]

/-- Helper for C6: with distinct parameter names, the built environment
binds the i-th parameter to the i-th argument, defaulting to zero when
the argument list is too short. -/
theorem foldl_env_get : ∀ (ps : List String) (args : List Int) (e : String → Int)
    (i : Nat) (hN : ps.Nodup) (hi : i < ps.length),
    ((zipArgs ps args).foldl (fun env pa => fun m => if m = pa.1 then pa.2 else env m) e) ps[i]
      = if h2 : i < args.length then args[i] else 0 := by
  intro ps
  induction ps with
  | nil => intro args e i _hN hi; exact absurd hi (by simp)
  | cons p ps ih =>
    intro args e i hN hi
    rw [List.nodup_cons] at hN
    cases args with
    | nil =>
      cases i with
      | zero =>
        simp only [zipArgs, List.foldl_cons, List.getElem_cons_zero]
        rw [foldl_env_not_mem _ _ p (by rw [zipArgs_keys]; exact hN.1)]
        simp
      | succ i =>
        simp only [zipArgs, List.foldl_cons, List.getElem_cons_succ]
        rw [ih [] _ i hN.2 (by simpa using hi)]
        simp
    | cons a as' =>
      cases i with
      | zero =>
        simp only [zipArgs, List.foldl_cons, List.getElem_cons_zero]
        rw [foldl_env_not_mem _ _ p (by rw [zipArgs_keys]; exact hN.1)]
        simp
      | succ i =>
        simp only [zipArgs, List.foldl_cons, List.getElem_cons_succ]
        rw [ih as' _ i hN.2 (by simpa using hi)]
        by_cases h2 : i < as'.length
        · simp [h2]
        · simp [h2]

/-- Helper for C6: `evalArgs` is exactly a map of `evaluate` over the
argument list. -/
theorem evalArgs_eq_map (tbl : PolyTables) (fuel : Nat) (env : String → Int) :
    ∀ args, evalArgs tbl fuel args env = args.map (fun a => evaluate tbl fuel a env)
  | [] => by simp [evalArgs]
  | a :: as' => by simp [evalArgs, evalArgs_eq_map tbl fuel env as']

/-- C6: for every `Call` evaluated at runtime, the arguments are
evaluated in the caller's current environment; the fresh callee
environment binds the i-th declared parameter to the i-th argument
value, with missing trailing arguments defaulting to zero and every
non-parameter name reading as zero (the callee body never sees
caller-local variables); a declared callee's body is evaluated in that
fresh binding only; `Pow` multiplies the base value exponent-many times
with exponent zero yielding one; and a call to an undeclared polynomial
evaluates to zero. -/
theorem C6_call_semantics (tbl : PolyTables) :
    (∀ fuel n args env,
      evaluate tbl (fuel + 1) (.call n args) env
        = evaluatePolyCall tbl fuel n (args.map (fun a => evaluate tbl (fuel + 1) a env))) ∧
    (∀ (params : List String) (args : List Int) (i : Nat),
      params.Nodup → ∀ hi : i < params.length,
      buildEnv params args params[i] = if h2 : i < args.length then args[i] else 0) ∧
    (∀ params args n, n ∉ params → buildEnv params args n = 0) ∧
    (∀ fuel name params body args,
      tbl.poly_declarations name = some params → tbl.polyExprs name = some body →
      evaluatePolyCall tbl fuel name args = evaluate tbl fuel body (buildEnv params args)) ∧
    (∀ fuel b e env, evaluate tbl fuel (.pow b e) env = powLoop (evaluate tbl fuel b env) e) ∧
    (∀ bv, powLoop bv 0 = 1) ∧
    (∀ bv e, powLoop bv (e + 1) = powLoop bv e * bv) ∧
    (∀ fuel name args,
      tbl.poly_declarations name = none → evaluatePolyCall tbl fuel name args = 0) := by
  refine ⟨?_, ?_, ?_, ?_, ?_, ?_, ?_, ?_⟩
  · intro fuel n args env
    rw [evaluate, evalArgs_eq_map]
  · intro params args i hN hi
    have h := foldl_env_get params args (fun _ => 0) i hN hi
    simpa [buildEnv] using h
  · intro params args n hn
    rw [buildEnv, foldl_env_not_mem _ _ n (by rw [zipArgs_keys]; exact hn)]
  · intro fuel name params body args h1 h2
    simp [evaluatePolyCall, h1, h2]
  · intro fuel b e env
    cases fuel <;> rw [evaluate]
  · intro bv
    rfl
  · intro bv e
    simp [powLoop, List.range_succ]
  · intro fuel name args h
    simp [evaluatePolyCall, h]

/-- C6 witness: the theorem applied to the table holding `f(x) = x + 1`,
with parameters `x, y`, a single argument 5, and the undeclared callee
`g`. -/
theorem C6_call_semantics_witness :
    buildEnv ["x", "y"] [5] "x" = 5 ∧
    buildEnv ["x", "y"] [5] "y" = 0 ∧
    buildEnv ["x", "y"] [5] "z" = 0 ∧
    evaluatePolyCall evalExampleTables 3 "g" [7] = 0 ∧
    evaluatePolyCall evalExampleTables 3 "f" [7]
      = evaluate evalExampleTables 3 (.add (.var "x" 2) (.const 1)) (buildEnv ["x"] [7]) := by
  have h := C6_call_semantics evalExampleTables
  refine ⟨?_, ?_, ?_, ?_, ?_⟩
  · have := h.2.1 ["x", "y"] [5] 0 (by decide) (by decide)
    simpa using this
  · have := h.2.1 ["x", "y"] [5] 1 (by decide) (by decide)
    simpa using this
  · exact h.2.2.1 ["x", "y"] [5] "z" (by decide)
  · exact h.2.2.2.2.2.2.2 3 "g" [7] (by decide)
  · exact h.2.2.2.1 3 "f" ["x"] (.add (.var "x" 2) (.const 1)) [7] (by decide) rfl

mutual

/-- Helper for C7: the warning lines an expression walk appends are
exactly the lines of its variable occurrences whose names are outside
the initialized set, in occurrence order. -/
theorem check_expr_for_uninit_eq_filter (initVars : List String) :
    ∀ e, check_expr_for_uninit initVars e
      = ((varOccs e).filter (fun occ => occ.1 ∉ initVars)).map (fun occ => occ.2)
  | .const _ => by simp [check_expr_for_uninit, varOccs]
  | .var n ln => by
    by_cases h : n ∈ initVars <;> simp [check_expr_for_uninit, varOccs, h]
  | .add l r => by
    simp [check_expr_for_uninit, varOccs, check_expr_for_uninit_eq_filter initVars l,
      check_expr_for_uninit_eq_filter initVars r]
  | .sub l r => by
    simp [check_expr_for_uninit, varOccs, check_expr_for_uninit_eq_filter initVars l,
      check_expr_for_uninit_eq_filter initVars r]
  | .mul l r => by
    simp [check_expr_for_uninit, varOccs, check_expr_for_uninit_eq_filter initVars l,
      check_expr_for_uninit_eq_filter initVars r]
  | .pow b _ => by
    simp [check_expr_for_uninit, varOccs, check_expr_for_uninit_eq_filter initVars b]
  | .call _ args => by
    simp [check_expr_for_uninit, varOccs, check_expr_for_uninit_args_eq_filter initVars args]

/-- Helper for C7: the argument-list version of
`check_expr_for_uninit_eq_filter`. -/
theorem check_expr_for_uninit_args_eq_filter (initVars : List String) :
    ∀ es, check_expr_for_uninit_args initVars es
      = ((varOccsList es).filter (fun occ => occ.1 ∉ initVars)).map (fun occ => occ.2)
  | [] => by simp [check_expr_for_uninit_args, varOccsList]
  | a :: as' => by
    simp [check_expr_for_uninit_args, varOccsList, check_expr_for_uninit_eq_filter initVars a,
      check_expr_for_uninit_args_eq_filter initVars as']

end

/-- C7: the uninitialized-use analysis is a single linear scan in which
`Input` extends the initialized set, `Output` is never checked and
leaves the scan state unchanged, and `Assign` first checks its
right-hand side against the current set (every variable occurrence
whose name is not yet in the set contributes its line) and only then
adds its left-hand variable; the warning report is the sorted
permutation of the collected lines, produced only when non-empty. -/
theorem C7_uninitialized_scan :
    (∀ rest initVars warns v,
      uninitScan (.input v :: rest) initVars warns = uninitScan rest (v :: initVars) warns) ∧
    (∀ rest initVars warns v,
      uninitScan (.output v :: rest) initVars warns = uninitScan rest initVars warns) ∧
    (∀ rest initVars warns v ln rhs,
      uninitScan (.assign v ln rhs :: rest) initVars warns
        = uninitScan rest (v :: initVars) (warns ++ check_expr_for_uninit initVars rhs)) ∧
    (∀ initVars e, check_expr_for_uninit initVars e
        = ((varOccs e).filter (fun occ => occ.1 ∉ initVars)).map (fun occ => occ.2)) ∧
    (∀ stmts, checkUninitializedWarnings stmts = none ↔ uninitScan stmts [] [] = []) ∧
    (∀ stmts l, checkUninitializedWarnings stmts = some l →
      l.Sorted (· ≤ ·) ∧ l ≠ [] ∧ l.Perm (uninitScan stmts [] [])) := by
  refine ⟨fun _ _ _ _ => rfl, fun _ _ _ _ => rfl, fun _ _ _ _ _ _ => rfl,
    check_expr_for_uninit_eq_filter, fun stmts => ?_, fun stmts l h => ?_⟩
  · by_cases hw : uninitScan stmts [] [] = [] <;> simp [checkUninitializedWarnings, hw]
  · by_cases hw : uninitScan stmts [] [] = []
    · simp [checkUninitializedWarnings, hw] at h
    · simp only [checkUninitializedWarnings, hw, if_false] at h
      injection h with h1
      subst h1
      have hperm := List.perm_insertionSort (· ≤ ·) (uninitScan stmts [] [])
      refine ⟨List.sorted_insertionSort _ _, ?_, hperm⟩
      intro hnil
      exact hw ((hnil ▸ hperm).symm.eq_nil)

/-- C7 witness: the theorem's report clause applied to the script
`a = b + 1; OUTPUT a;` where `b` is never initialized. -/
theorem C7_uninitialized_scan_witness :
    ([3] : List Nat).Sorted (· ≤ ·) ∧ ([3] : List Nat) ≠ [] ∧
    ([3] : List Nat).Perm (uninitScan
      [.assign "a" 3 (.add (.var "b" 3) (.const 1)), .output "a"] [] []) :=
  C7_uninitialized_scan.2.2.2.2.2
    [.assign "a" 3 (.add (.var "b" 3) (.const 1)), .output "a"] [3] rfl

/-- C8: the useless-assignment forward scan decides each assignment as
the claim states: a re-assignment of the same variable decides by
whether its right-hand side reads the variable, an `Input` of the same
variable decides useless, an `Output` of the same variable decides used,
any other assignment whose right-hand side reads the variable decides
used, other statements are skipped, and exhausting the statements leaves
the assignment useless; the report is the sorted permutation of the
useless lines, produced only when non-empty. -/
theorem C8_useless_assignment_scan :
    (∀ v, assignUsed v [] = false) ∧
    (∀ v ln rhs rest, assignUsed v (.assign v ln rhs :: rest) = exprUsesVar v rhs) ∧
    (∀ v v' ln rhs rest, v' ≠ v →
      assignUsed v (.assign v' ln rhs :: rest) = (exprUsesVar v rhs || assignUsed v rest)) ∧
    (∀ v rest, assignUsed v (.input v :: rest) = false) ∧
    (∀ v v' rest, v' ≠ v → assignUsed v (.input v' :: rest) = assignUsed v rest) ∧
    (∀ v rest, assignUsed v (.output v :: rest) = true) ∧
    (∀ v v' rest, v' ≠ v → assignUsed v (.output v' :: rest) = assignUsed v rest) ∧
    (∀ v ln rhs rest, uselessLines (.assign v ln rhs :: rest)
        = (if assignUsed v rest then [] else [ln]) ++ uselessLines rest) ∧
    (∀ v rest, uselessLines (.input v :: rest) = uselessLines rest) ∧
    (∀ v rest, uselessLines (.output v :: rest) = uselessLines rest) ∧
    (∀ stmts, checkUselessAssignments stmts = none ↔ uselessLines stmts = []) ∧
    (∀ stmts l, checkUselessAssignments stmts = some l →
      l.Sorted (· ≤ ·) ∧ l ≠ [] ∧ l.Perm (uselessLines stmts)) := by
  refine ⟨fun _ => rfl, fun v ln rhs rest => by simp [assignUsed],
    fun v v' ln rhs rest h => ?_, fun v rest => by simp [assignUsed],
    fun v v' rest h => by simp [assignUsed, h], fun v rest => by simp [assignUsed],
    fun v v' rest h => by simp [assignUsed, h], fun _ _ _ _ => rfl,
    fun _ _ => rfl, fun _ _ => rfl, fun stmts => ?_, fun stmts l h => ?_⟩
  · by_cases hu : exprUsesVar v rhs <;> simp [assignUsed, h, hu]
  · by_cases hw : uselessLines stmts = [] <;> simp [checkUselessAssignments, hw]
  · by_cases hw : uselessLines stmts = []
    · simp [checkUselessAssignments, hw] at h
    · simp only [checkUselessAssignments, hw, if_false] at h
      injection h with h1
      subst h1
      have hperm := List.perm_insertionSort (· ≤ ·) (uselessLines stmts)
      refine ⟨List.sorted_insertionSort _ _, ?_, hperm⟩
      intro hnil
      exact hw ((hnil ▸ hperm).symm.eq_nil)

/-- C8 witness: the theorem's report clause applied to
`a = 1; a = 2; OUTPUT a;`, whose first assignment (line 1) is useless. -/
theorem C8_useless_assignment_scan_witness :
    ([1] : List Nat).Sorted (· ≤ ·) ∧ ([1] : List Nat) ≠ [] ∧
    ([1] : List Nat).Perm (uselessLines
      [.assign "a" 1 (.const 1), .assign "a" 2 (.const 2), .output "a"]) :=
  C8_useless_assignment_scan.2.2.2.2.2.2.2.2.2.2.2
    [.assign "a" 1 (.const 1), .assign "a" 2 (.const 2), .output "a"] [1] rfl

/-- Helper for C9: the effect of one `parse_num_list` iteration on each
flag. -/
theorem setTaskFlag_proj (f : TaskFlags) (a : Int) :
    (setTaskFlag f a).runTask2 = (f.runTask2 || decide (a = 2)) ∧
    (setTaskFlag f a).runTask3 = (f.runTask3 || decide (a = 3)) ∧
    (setTaskFlag f a).runTask4 = (f.runTask4 || decide (a = 4)) ∧
    (setTaskFlag f a).runTask5 = (f.runTask5 || decide (a = 5)) := by
  refine ⟨?_, ?_, ?_, ?_⟩ <;>
    · by_cases e2 : a = 2 <;> by_cases e3 : a = 3 <;> by_cases e4 : a = 4 <;>
        by_cases e5 : a = 5 <;> simp [setTaskFlag, e2, e3, e4, e5]

/-- Helper for C9: membership in a cons cell, at the Boolean level. -/
theorem decide_mem_cons (k a : Int) (l : List Int) :
    decide (k ∈ a :: l) = (decide (a = k) || decide (k ∈ l)) := by
  by_cases h : a = k
  · subst h; simp
  · have h2 : ¬k = a := fun hk => h hk.symm
    simp [List.mem_cons, h, h2]

/-- Helper for C9: each task flag after the fold is true exactly when it
was already true or its number occurs in the remaining list. -/
theorem parse_num_list_foldl (l : List Int) : ∀ f : TaskFlags,
    (l.foldl setTaskFlag f).runTask2 = (f.runTask2 || decide ((2 : Int) ∈ l)) ∧
    (l.foldl setTaskFlag f).runTask3 = (f.runTask3 || decide ((3 : Int) ∈ l)) ∧
    (l.foldl setTaskFlag f).runTask4 = (f.runTask4 || decide ((4 : Int) ∈ l)) ∧
    (l.foldl setTaskFlag f).runTask5 = (f.runTask5 || decide ((5 : Int) ∈ l)) := by
  induction l with
  | nil => intro f; simp
  | cons a l ih =>
    intro f
    obtain ⟨h2, h3, h4, h5⟩ := ih (setTaskFlag f a)
    obtain ⟨g2, g3, g4, g5⟩ := setTaskFlag_proj f a
    rw [List.foldl_cons]
    refine ⟨h2.trans ?_, h3.trans ?_, h4.trans ?_, h5.trans ?_⟩ <;>
      first
        | rw [g2, decide_mem_cons, Bool.or_assoc]
        | rw [g3, decide_mem_cons, Bool.or_assoc]
        | rw [g4, decide_mem_cons, Bool.or_assoc]
        | rw [g5, decide_mem_cons, Bool.or_assoc]

/-- Helper for C9: the task flags produced by the TASKS section depend
only on which numbers occur in the list. -/
theorem parse_num_list_eq_mem (l : List Int) :
    parse_num_list l = ⟨decide ((2 : Int) ∈ l), decide ((3 : Int) ∈ l),
      decide ((4 : Int) ∈ l), decide ((5 : Int) ∈ l)⟩ := by
  obtain ⟨h2, h3, h4, h5⟩ := parse_num_list_foldl l ⟨false, false, false, false⟩
  simp only [Bool.false_or] at h2 h3 h4 h5
  rw [parse_num_list]
  rcases hq : l.foldl setTaskFlag ⟨false, false, false, false⟩ with ⟨a, b, c, d⟩
  rw [hq] at h2 h3 h4 h5
  simp only [TaskFlags.mk.injEq]
  exact ⟨h2, h3, h4, h5⟩

/-- C9: task selection is idempotent and order-independent: listing a
task number twice produces the same flags (and hence the same fixed-
order post-processing dispatch of `main`) as listing it once, and
permuting the listed numbers changes nothing. -/
theorem C9_task_selection :
    (∀ (l1 l2 : List Int) (n : Int),
      parse_num_list (l1 ++ n :: n :: l2) = parse_num_list (l1 ++ n :: l2) ∧
      tasksRun (parse_num_list (l1 ++ n :: n :: l2))
        = tasksRun (parse_num_list (l1 ++ n :: l2))) ∧
    (∀ l l', l.Perm l' → parse_num_list l = parse_num_list l' ∧
      tasksRun (parse_num_list l) = tasksRun (parse_num_list l')) := by
  constructor
  · intro l1 l2 n
    have h : parse_num_list (l1 ++ n :: n :: l2) = parse_num_list (l1 ++ n :: l2) := by
      rw [parse_num_list_eq_mem, parse_num_list_eq_mem]
      simp only [TaskFlags.mk.injEq]
      refine ⟨?_, ?_, ?_, ?_⟩ <;>
        exact decide_eq_decide.mpr
          (by simp only [List.mem_append, List.mem_cons]; tauto)
    exact ⟨h, by rw [h]⟩
  · intro l l' hp
    have h : parse_num_list l = parse_num_list l' := by
      rw [parse_num_list_eq_mem, parse_num_list_eq_mem]
      simp only [TaskFlags.mk.injEq]
      exact ⟨decide_eq_decide.mpr hp.mem_iff, decide_eq_decide.mpr hp.mem_iff,
        decide_eq_decide.mpr hp.mem_iff, decide_eq_decide.mpr hp.mem_iff⟩
    exact ⟨h, by rw [h]⟩

/-- C9 witness: the theorem applied to the permuted lists `[2, 3]` and
`[3, 2]`. -/
theorem C9_task_selection_witness :
    parse_num_list [2, 3] = parse_num_list [3, 2] ∧
    tasksRun (parse_num_list [2, 3]) = tasksRun (parse_num_list [3, 2]) :=
  C9_task_selection.2 [2, 3] [3, 2] (by decide)

/-- C4 witness: the amended theorem applied to a duplicated
duplicate-declaration line. -/
theorem C4_report_sorted_not_deduped_witness :
    ([3, 3] : List Nat).Sorted (· ≤ ·) ∧
    ((1 = 1 ∧ ([3, 3] : List Nat).Perm [3, 3]) ∨
      (1 = 2 ∧ ([3, 3] : List Nat).Perm []) ∨
      ((1 = 3 ∨ 1 = 4) ∧ ([3, 3] : List Nat).Perm (([] : List SemErr).map SemErr.line))) :=
  C4_report_sorted_not_deduped [3, 3] [] [] 1 [3, 3] (by decide)

end PolyCalc
